import Mathlib

/-!
Verification of the diff-parsing and report-building core of
`.github/scripts/code_review.py`.

The script is embedded shallowly:

* Python `str` values are Lean `String`s; the handful of string primitives the
  script uses (`splitlines`, `split()`, `startswith`, slicing `[2:]`,
  `os.path.basename`) are re-implemented structurally over the character list
  `String.data` so that every definition evaluates inside the kernel.
  `splitlines` is modelled for newline-separated text and `split()` for the
  ASCII whitespace recognised by `Char.isWhitespace`; no input considered here
  uses the remaining exotic separators.
* The `files` dict of `analyze_code_changes` becomes an insertion-ordered
  association list; Python dict assignment keeps the position of an existing
  key, which `setEntry` reproduces.
* The statements of the parsing loop become `stepMain` (the
  `if`/`elif` chain) followed by `stepFlags` (the two trailing flag `if`s);
  an `IndexError` from `parts[2]` on a malformed header is modelled by
  `Option.none`.
* `main` and its collaborators (GitHub diff endpoint, OpenAI completion,
  comment posting) are modelled by `runMain` over a record of oracle results;
  Python exception propagation becomes early return, and the list of calls
  actually attempted is recorded as a trace.
-/

/-- Model of Python `str.startswith`: `pre` is a character-list prefix of `s`. -/
def pyStartsWith (s pre : String) : Bool := pre.data.isPrefixOf s.data

/-- Split a character list at every character satisfying `p`, keeping the
(possibly empty) chunks between separators, as Python `str.split(sep)` does. -/
def splitOnPred (p : Char → Bool) : List Char → List (List Char)
  | [] => [[]]
  | c :: cs =>
    if p c then [] :: splitOnPred p cs
    else
      match splitOnPred p cs with
      | [] => [[c]]
      | l :: ls => (c :: l) :: ls

/-- Model of Python `str.splitlines` for newline-separated text: split on
`newline`, dropping the final empty chunk produced by a trailing newline, and
returning `[]` for the empty string. -/
def pySplitlines (s : String) : List String :=
  if s.data = [] then []
  else
    let parts := (splitOnPred (fun c => c = '\n') s.data).map String.mk
    match parts.getLast? with
    | some "" => parts.dropLast
    | _ => parts

/-- Model of Python `str.split()` (no argument): split on whitespace runs and
drop the empty chunks. -/
def pySplitWs (s : String) : List String :=
  ((splitOnPred Char.isWhitespace s.data).map String.mk).filter (fun t => t ≠ "")

/-- Model of the Python slice `s[n:]`. -/
def pyDropChars (n : Nat) (s : String) : String := String.mk (s.data.drop n)

/-- Per-file statistics: the value type of the `files` dict built by
`analyze_code_changes`.  The Python dict is created without the `added` and
`deleted` keys; a missing key is modelled by `false`. -/
structure FileStats where
  adds : Nat
  removes : Nat
  hunks : List String
  added : Bool
  deleted : Bool
deriving Repr, DecidableEq

/-- The fresh value `{'adds': 0, 'removes': 0, 'hunks': []}` bound at a
`diff --git` header. -/
def initStats : FileStats := ⟨0, 0, [], false, false⟩

/-- State of the parsing loop: the insertion-ordered `files` dict and the
`current` variable (`none` models Python `None`). -/
structure ParseState where
  files : List (String × FileStats)
  current : Option String
deriving Repr, DecidableEq

/-- Python truthiness of the `current` variable: `None` and `''` are falsy. -/
def truthy : Option String → Bool
  | none => false
  | some s => s != ""

/-- Dict assignment `files[k] = v`: replace in place if the key is present
(keeping its position), otherwise append. -/
def setEntry : List (String × FileStats) → String → FileStats → List (String × FileStats)
  | [], k, v => [(k, v)]
  | (k', v') :: rest, k, v =>
    if k' = k then (k, v) :: rest else (k', v') :: setEntry rest k v

/-- In-place mutation `files[k] = f (files[k])`.  In every state the loop
reaches, a truthy `current` key is present in the dict, so the absent-key case
(Python `KeyError`) is unreachable; the map is then a no-op there. -/
def modifyEntry (files : List (String × FileStats)) (k : String)
    (f : FileStats → FileStats) : List (String × FileStats) :=
  files.map (fun p => if p.1 = k then (p.1, f p.2) else p)

/-- Dict lookup `files[k]` on the association list (first match). -/
def getStats : List (String × FileStats) → String → Option FileStats
  | [], _ => none
  | p :: rest, k => if p.1 = k then some p.2 else getStats rest k

/-- `line.startswith('+') and not line.startswith('+++')`. -/
def plusLine (line : String) : Bool :=
  pyStartsWith line "+" && !pyStartsWith line "+++"

/-- `line.startswith('-') and not line.startswith('---')`. -/
def minusLine (line : String) : Bool :=
  pyStartsWith line "-" && !pyStartsWith line "---"

/-- Body of the `elif current:` branch: append the line to the current hunks,
then bump `adds` or `removes` following the `if`/`elif` on the line prefix. -/
def countStats (line : String) (fs : FileStats) : FileStats :=
  let fs1 := { fs with hunks := fs.hunks ++ [line] }
  if plusLine line then { fs1 with adds := fs1.adds + 1 }
  else if minusLine line then { fs1 with removes := fs1.removes + 1 }
  else fs1

/-- `line.split()[2][2:]` on a header line; `none` models the `IndexError`
raised when the header has fewer than three whitespace-separated tokens. -/
def headerKey (line : String) : Option String :=
  ((pySplitWs line).get? 2).map (pyDropChars 2)

/-- The `if line.startswith('diff --git') ... elif current: ... ` chain of the
parsing loop. -/
def stepMain (st : ParseState) (line : String) : Option ParseState :=
  if pyStartsWith line "diff --git" then
    match headerKey line with
    | none => none
    | some path => some ⟨setEntry st.files path initStats, some path⟩
  else if truthy st.current then
    some ⟨modifyEntry st.files (st.current.getD "") (countStats line), st.current⟩
  else some st

/-- `files[current]['added'] = True`. -/
def setAdded (fs : FileStats) : FileStats := { fs with added := true }

/-- `files[current]['deleted'] = True`. -/
def setDeleted (fs : FileStats) : FileStats := { fs with deleted := true }

/-- First trailing flag `if` of the parsing loop:
`if line.startswith('new file mode') and current`. -/
def stepFlags1 (st : ParseState) (line : String) : ParseState :=
  if pyStartsWith line "new file mode" && truthy st.current then
    ⟨modifyEntry st.files (st.current.getD "") setAdded, st.current⟩
  else st

/-- Second trailing flag `if` of the parsing loop:
`if line.startswith('deleted file mode') and current`. -/
def stepFlags2 (st : ParseState) (line : String) : ParseState :=
  if pyStartsWith line "deleted file mode" && truthy st.current then
    ⟨modifyEntry st.files (st.current.getD "") setDeleted, st.current⟩
  else st

/-- The two trailing flag `if`s of the parsing loop, executed in sequence on
every line after the main chain. -/
def stepFlags (st : ParseState) (line : String) : ParseState :=
  stepFlags2 (stepFlags1 st line) line

/-- One iteration of `for line in diff_text.splitlines()`. -/
def stepLine (st : ParseState) (line : String) : Option ParseState :=
  (stepMain st line).map (fun st1 => stepFlags st1 line)

/-- Run the parsing loop over the remaining lines from a given state. -/
def parseFrom (st : ParseState) : List String → Option ParseState
  | [] => some st
  | l :: ls =>
    match stepLine st l with
    | none => none
    | some st' => parseFrom st' ls

/-- The whole parsing loop, from `files = {}`, `current = None`. -/
def parseLines (lines : List String) : Option ParseState :=
  parseFrom ⟨[], none⟩ lines

/-- The diff-parsing phase of `analyze_code_changes` on the raw diff text. -/
def parseDiff (diff_text : String) : Option ParseState :=
  parseLines (pySplitlines diff_text)

/-- The dict comprehension excluding `.github/` paths. -/
def excludeGithub (files : List (String × FileStats)) : List (String × FileStats) :=
  files.filter (fun p => !pyStartsWith p.1 ".github/")

/-- Model of `os.path.basename`: the final `/`-separated segment. -/
def basename (p : String) : String :=
  ((splitOnPred (fun c => c = '/') p.data).map String.mk).getLast?.getD ""

/-- One row of the Change Summary table: display name (basename), added count,
removed count, and their sum. -/
structure SummaryRow where
  name : String
  adds : Nat
  removes : Nat
  total : Nat
deriving Repr, DecidableEq

/-- The data of the rendered Change Summary: the ordered per-file rows and the
grand totals accumulated in the same loop. -/
structure ChangeSummary where
  rows : List SummaryRow
  totalAdds : Nat
  totalRemoves : Nat
deriving Repr, DecidableEq

/-- The row built for one `files` entry inside the summary loop. -/
def rowOf (p : String × FileStats) : SummaryRow :=
  ⟨basename p.1, p.2.adds, p.2.removes, p.2.adds + p.2.removes⟩

/-- One iteration of the summary loop: append the row and add the per-file
counts into the running totals. -/
def summaryStep (acc : ChangeSummary) (p : String × FileStats) : ChangeSummary :=
  ⟨acc.rows ++ [rowOf p], acc.totalAdds + p.2.adds, acc.totalRemoves + p.2.removes⟩

/-- The summary-building loop over the (already exclusion-filtered) entries. -/
def buildSummary (files : List (String × FileStats)) : ChangeSummary :=
  files.foldl summaryStep ⟨[], 0, 0⟩

/-- Parsing followed by exclusion and summary building: the data behind the
Change Summary table of `analyze_code_changes`. -/
def analyzeSummary (diff_text : String) : Option ChangeSummary :=
  (parseDiff diff_text).map (fun st => buildSummary (excludeGithub st.files))

/-- The keys announced by `diff --git` header lines, in input order (with
multiplicity). -/
def headerPaths (lines : List String) : List String :=
  lines.filterMap (fun l => if pyStartsWith l "diff --git" then headerKey l else none)

/-- Keep the first occurrence of each element, in order of first appearance. -/
def firstOccur : List String → List String
  | [] => []
  | x :: xs => x :: (firstOccur xs).filter (fun y => y ≠ x)

/-- Append a key to an ordered key list unless it is already present. -/
def insKey (ks : List String) (k : String) : List String :=
  if k ∈ ks then ks else ks ++ [k]

/-- Fold `insKey` over a list of announced keys. -/
def insKeys (ks : List String) : List String → List String
  | [] => ks
  | h :: hs => insKeys (insKey ks h) hs

/-- The second pass over the diff (`filtered_diff`): drop every block whose
header's `parts[2][2:]` path lies under `.github/`.  `skip` carries across
lines; `none` again models the `IndexError` on a short header. -/
def filterFrom (acc : List String) (skip : Bool) : List String → Option (List String)
  | [] => some acc
  | l :: ls =>
    if pyStartsWith l "diff --git" then
      match headerKey l with
      | none => none
      | some pb =>
        let sk := pyStartsWith pb ".github/"
        filterFrom (if sk then acc else acc ++ [l]) sk ls
    else
      filterFrom (if skip then acc else acc ++ [l]) skip ls

/-- Python `'\n'.join`. -/
def joinNl : List String → String
  | [] => ""
  | [l] => l
  | l :: ls => l ++ "\n" ++ joinNl ls

/-- The prompt string assembled for the completion request, with the filtered
diff text spliced into the fenced block. -/
def buildPrompt (filtered_diff_text : String) : String :=
  "### 2️⃣ PR Overview\n"
    ++ "Analyze the diff above and describe the primary objectives of this PR, noting any file additions or deletions, and summarizing the expected impact on functionality, performance, and maintainability.\n\n"
    ++ "### 3️⃣ File-level Changes\n"
    ++ "For each file in the Change Summary, provide bullet points detailing key modifications, additions, and deletions. Include brief code snippets from the diff for context.\n\n"
    ++ "### 4️⃣ Recommendations / Improvements\n"
    ++ "Based on the diff, suggest actionable recommendations such as adding null checks, improving validation, refactoring duplicated logic, and updating documentation or tests.\n\n"
    ++ "### Full Diff\n"
    ++ "```diff\n" ++ filtered_diff_text ++ "\n```"

/-- The three outbound calls `main` can attempt, in the order the script makes
them. -/
inductive ExtCall where
  | fetchDiff
  | narrative
  | postComment
deriving Repr, DecidableEq

/-- Results of the external collaborators for one invocation: the GitHub diff
fetch (`get_pr_diff`), the completion call keyed by the prompt it is given,
and the comment post keyed by the body it is given.  `Except.error` models a
raised exception (e.g. `raise_for_status`). -/
structure Collab where
  fetchDiff : Except String String
  narrative : String → Except String String
  postComment : String → Except String Unit

/-- `main` of the script: fetch the diff, run `analyze_code_changes` (parse,
filter, prompt, completion, assembly), then post the comment.  An exception at
any step propagates and ends the run; the first component records which
external calls were attempted, in order.  The section-splitting and
collapsible-markdown assembly of the comment body is total string processing
with no effect on control flow; it is abstracted as the `assemble` argument. -/
def runMain (env : Collab) (assemble : ChangeSummary → String → String) :
    List ExtCall × Except String Unit :=
  match env.fetchDiff with
  | Except.error e => ([ExtCall.fetchDiff], Except.error e)
  | Except.ok diff =>
    match parseDiff diff with
    | none => ([ExtCall.fetchDiff], Except.error "IndexError")
    | some st =>
      match filterFrom [] false (pySplitlines diff) with
      | none => ([ExtCall.fetchDiff], Except.error "IndexError")
      | some fl =>
        match env.narrative (buildPrompt (joinNl fl)) with
        | Except.error e => ([ExtCall.fetchDiff, ExtCall.narrative], Except.error e)
        | Except.ok body =>
          match env.postComment (assemble (buildSummary (excludeGithub st.files)) body) with
          | Except.error e =>
            ([ExtCall.fetchDiff, ExtCall.narrative, ExtCall.postComment], Except.error e)
          | Except.ok _ =>
            ([ExtCall.fetchDiff, ExtCall.narrative, ExtCall.postComment], Except.ok ())

/-! ### Basic lemmas about the string model -/

/-- Two prefixes of the same list are comparable. -/
theorem isPrefixOf_comparable :
    ∀ (p q l : List Char), p.isPrefixOf l = true → q.isPrefixOf l = true →
      (p.isPrefixOf q || q.isPrefixOf p) = true
  | [], q, _, _, _ => by simp [List.isPrefixOf]
  | p, [], _, _, _ => by cases p <;> simp [List.isPrefixOf]
  | a :: p, b :: q, [], hp, _ => by simp [List.isPrefixOf] at hp
  | a :: p, b :: q, c :: l, hp, hq => by
    simp only [List.isPrefixOf, Bool.and_eq_true, beq_iff_eq] at hp hq ⊢
    obtain ⟨rfl, hp'⟩ := hp
    obtain ⟨rfl, hq'⟩ := hq
    simpa using isPrefixOf_comparable p q l hp' hq'

/-- Prefix order is transitive. -/
theorem isPrefixOf_trans :
    ∀ (p q l : List Char), p.isPrefixOf q = true → q.isPrefixOf l = true →
      p.isPrefixOf l = true
  | [], _, _, _, _ => by simp [List.isPrefixOf]
  | a :: p, [], _, hp, _ => by simp [List.isPrefixOf] at hp
  | a :: p, b :: q, [], _, hq => by simp [List.isPrefixOf] at hq
  | a :: p, b :: q, c :: l, hp, hq => by
    simp only [List.isPrefixOf, Bool.and_eq_true, beq_iff_eq] at hp hq ⊢
    obtain ⟨rfl, hp'⟩ := hp
    obtain ⟨rfl, hq'⟩ := hq
    exact ⟨rfl, isPrefixOf_trans p q l hp' hq'⟩

/-- A string starting with `p` cannot also start with an incomparable `q`. -/
theorem pyStartsWith_excl {s : String} (p q : String)
    (hpq : p.data.isPrefixOf q.data = false) (hqp : q.data.isPrefixOf p.data = false)
    (h : pyStartsWith s p = true) : pyStartsWith s q = false := by
  cases hq : pyStartsWith s q
  · rfl
  · have hcmp := isPrefixOf_comparable p.data q.data s.data h hq
    rw [hpq, hqp] at hcmp
    cases hcmp

/-- A string starting with the longer `q` also starts with its prefix `p`. -/
theorem pyStartsWith_mono {s : String} (p q : String)
    (hpq : p.data.isPrefixOf q.data = true)
    (h : pyStartsWith s q = true) : pyStartsWith s p = true :=
  isPrefixOf_trans p.data q.data s.data hpq h

/-- A `+`-line (as counted) is never a `-`-line. -/
theorem plusLine_not_minusLine {l : String} (h : plusLine l = true) : minusLine l = false := by
  have h1 : pyStartsWith l "+" = true := by
    have h' := h
    unfold plusLine at h'
    exact (Bool.and_eq_true _ _ |>.mp h').1
  have h2 : pyStartsWith l "-" = false :=
    pyStartsWith_excl "+" "-" (by decide) (by decide) h1
  unfold minusLine
  rw [h2]
  rfl

/-- The added and removed counters classify disjoint sets of lines, so their
sum counts the union. -/
theorem countP_plus_minus :
    ∀ (l : List String),
      l.countP plusLine + l.countP minusLine
        = l.countP (fun x => plusLine x || minusLine x)
  | [] => by simp
  | x :: l => by
    by_cases hp : plusLine x = true
    · have hm := plusLine_not_minusLine hp
      simp [List.countP_cons, hp, hm, ← countP_plus_minus l]
      omega
    · have hp' : plusLine x = false := by revert hp; cases plusLine x <;> simp
      by_cases hm : minusLine x = true
      · simp [List.countP_cons, hp', hm, ← countP_plus_minus l]
        omega
      · have hm' : minusLine x = false := by revert hm; cases minusLine x <;> simp
        simp [List.countP_cons, hp', hm', ← countP_plus_minus l]

/-! ### Lemmas about the association-list dict operations -/

/-- Lookup after dict assignment. -/
theorem getStats_setEntry :
    ∀ (files : List (String × FileStats)) (p k : String) (v : FileStats),
      getStats (setEntry files p v) k = if p = k then some v else getStats files k
  | [], p, k, v => by
    by_cases hpk : p = k <;> simp [getStats, setEntry, hpk]
  | (k', v') :: rest, p, k, v => by
    by_cases hk'p : k' = p
    · subst hk'p
      by_cases hpk : k' = k <;> simp [getStats, setEntry, hpk]
    · by_cases hk'k : k' = k
      · subst hk'k
        have hpk : p ≠ k' := fun he => hk'p he.symm
        simp [getStats, setEntry, hk'p, hpk]
      · simp [getStats, setEntry, hk'p, hk'k, getStats_setEntry rest p k v]

/-- Unfolding of `modifyEntry` on a cons cell. -/
theorem modifyEntry_cons (q : String × FileStats) (rest : List (String × FileStats))
    (c : String) (f : FileStats → FileStats) :
    modifyEntry (q :: rest) c f
      = (if q.1 = c then (q.1, f q.2) else q) :: modifyEntry rest c f := rfl

/-- Refolding of the mapped tail back into `modifyEntry`. -/
theorem map_eq_modifyEntry (rest : List (String × FileStats)) (c : String)
    (f : FileStats → FileStats) :
    List.map (fun p => if p.1 = c then (p.1, f p.2) else p) rest = modifyEntry rest c f := rfl

/-- Lookup after in-place mutation. -/
theorem getStats_modifyEntry :
    ∀ (files : List (String × FileStats)) (c k : String) (f : FileStats → FileStats),
      getStats (modifyEntry files c f) k
        = if c = k then (getStats files k).map f else getStats files k
  | [], c, k, f => by by_cases hck : c = k <;> simp [getStats, modifyEntry, hck]
  | (k', v') :: rest, c, k, f => by
    by_cases hk'c : k' = c
    · subst hk'c
      by_cases hk'k : k' = k
      · subst hk'k
        simp [getStats, modifyEntry_cons]
      · simp [getStats, modifyEntry_cons, map_eq_modifyEntry, hk'k, getStats_modifyEntry rest k' k f]
    · by_cases hk'k : k' = k
      · subst hk'k
        have hck : c ≠ k' := fun he => hk'c he.symm
        simp [getStats, modifyEntry_cons, hk'c, hck]
      · simp [getStats, modifyEntry_cons, map_eq_modifyEntry, hk'c, hk'k, getStats_modifyEntry rest c k f]

/-- Mutation does not change the key sequence. -/
theorem map_fst_modifyEntry (files : List (String × FileStats)) (c : String)
    (f : FileStats → FileStats) :
    (modifyEntry files c f).map Prod.fst = files.map Prod.fst := by
  unfold modifyEntry
  rw [List.map_map]
  apply List.map_congr_left
  intro p _
  by_cases h : p.1 = c <;> simp [h]

/-- Assignment extends the key sequence by `insKey`: in place if present,
appended if new. -/
theorem map_fst_setEntry :
    ∀ (files : List (String × FileStats)) (k : String) (v : FileStats),
      (setEntry files k v).map Prod.fst = insKey (files.map Prod.fst) k
  | [], k, v => by simp [setEntry, insKey]
  | (k', v') :: rest, k, v => by
    by_cases h : k' = k
    · subst h
      simp [setEntry, insKey]
    · have hne : k ≠ k' := fun he => h he.symm
      by_cases hm : k ∈ rest.map Prod.fst <;>
        simp [setEntry, insKey, h, hne, hm, map_fst_setEntry rest k v]

/-- Membership after assignment: the new pair or an old one. -/
theorem mem_setEntry :
    ∀ (files : List (String × FileStats)) (k : String) (v : FileStats)
      (p : String × FileStats), p ∈ setEntry files k v → p = (k, v) ∨ p ∈ files
  | [], k, v, p, h => Or.inl (by simpa [setEntry] using h)
  | (k', v') :: rest, k, v, p, h => by
    by_cases hk : k' = k
    · subst hk
      simp only [setEntry, if_pos rfl] at h
      rcases List.mem_cons.mp h with h1 | h1
      · exact Or.inl h1
      · exact Or.inr (List.mem_cons_of_mem _ h1)
    · simp only [setEntry, if_neg hk] at h
      rcases List.mem_cons.mp h with h1 | h1
      · exact Or.inr (by simp [h1])
      · rcases mem_setEntry rest k v p h1 with h2 | h2
        · exact Or.inl h2
        · exact Or.inr (List.mem_cons_of_mem _ h2)

/-! ### Branch lemmas for one parsing-loop iteration -/

/-- The first flag `if` is skipped on lines without the marker prefix. -/
theorem stepFlags1_noop {st : ParseState} {l : String}
    (h : pyStartsWith l "new file mode" = false) : stepFlags1 st l = st := by
  simp [stepFlags1, h]

/-- The second flag `if` is skipped on lines without the marker prefix. -/
theorem stepFlags2_noop {st : ParseState} {l : String}
    (h : pyStartsWith l "deleted file mode" = false) : stepFlags2 st l = st := by
  simp [stepFlags2, h]

/-- Both flag `if`s are skipped on lines without either marker prefix. -/
theorem stepFlags_noop {st : ParseState} {l : String}
    (h1 : pyStartsWith l "new file mode" = false)
    (h2 : pyStartsWith l "deleted file mode" = false) : stepFlags st l = st := by
  rw [stepFlags, stepFlags1_noop h1, stepFlags2_noop h2]

/-- The flag `if`s never change `current`. -/
theorem stepFlags_current (st : ParseState) (l : String) :
    (stepFlags st l).current = st.current := by
  unfold stepFlags stepFlags1 stepFlags2
  split <;> split <;> rfl

/-- The flag `if`s never change the key sequence. -/
theorem stepFlags_map_fst (st : ParseState) (l : String) :
    (stepFlags st l).files.map Prod.fst = st.files.map Prod.fst := by
  unfold stepFlags stepFlags1 stepFlags2
  split <;> split <;> simp [map_fst_modifyEntry]

/-- A well-keyed header line replaces the keyed entry by fresh zero statistics
and re-targets `current`; the flag `if`s cannot fire on it. -/
theorem stepLine_header {st : ParseState} {line path : String}
    (hd : pyStartsWith line "diff --git" = true) (hk : headerKey line = some path) :
    stepLine st line = some ⟨setEntry st.files path initStats, some path⟩ := by
  have h1 : pyStartsWith line "new file mode" = false :=
    pyStartsWith_excl "diff --git" "new file mode" (by decide) (by decide) hd
  have h2 : pyStartsWith line "deleted file mode" = false :=
    pyStartsWith_excl "diff --git" "deleted file mode" (by decide) (by decide) hd
  simp [stepLine, stepMain, hd, hk, stepFlags_noop h1 h2]

/-- A header line with fewer than three tokens aborts the loop. -/
theorem stepLine_header_fail {st : ParseState} {line : String}
    (hd : pyStartsWith line "diff --git" = true) (hk : headerKey line = none) :
    stepLine st line = none := by
  simp [stepLine, stepMain, hd, hk]

/-- A non-header line under a truthy `current` is recorded in the current
entry, then the flag `if`s run. -/
theorem stepLine_body {st : ParseState} {line : String}
    (hd : pyStartsWith line "diff --git" = false) (hc : truthy st.current = true) :
    stepLine st line
      = some (stepFlags
          ⟨modifyEntry st.files (st.current.getD "") (countStats line), st.current⟩ line) := by
  simp [stepLine, stepMain, hd, hc]

/-- A non-header line with falsy `current` leaves the dict alone apart from
the flag `if`s (which are also inert when `current` is falsy). -/
theorem stepLine_skip {st : ParseState} {line : String}
    (hd : pyStartsWith line "diff --git" = false) (hc : truthy st.current = false) :
    stepLine st line = some (stepFlags st line) := by
  simp [stepLine, stepMain, hd, hc]

/-! ### The key sequence of the parsed dict -/

/-- Boolean helper: a non-true Bool is false. -/
theorem bool_eq_false {b : Bool} (h : ¬ b = true) : b = false := by
  cases b
  · rfl
  · exact absurd rfl h

/-- Filtering away an `insKey`-extended set splits into the two filters. -/
theorem filter_not_mem_insKey (ks : List String) (h : String) (l : List String) :
    (l.filter (fun y => decide (y ∉ insKey ks h)))
      = (l.filter (fun y => decide (y ≠ h))).filter (fun y => decide (y ∉ ks)) := by
  rw [List.filter_filter]
  apply List.filter_congr
  intro y _
  by_cases hyh : y = h
  · subst hyh
    by_cases hm : y ∈ ks <;> simp [insKey, hm]
  · by_cases hm : y ∈ ks
    · by_cases hk : h ∈ ks <;> simp [insKey, hk, hyh, hm]
    · by_cases hk : h ∈ ks <;> simp [insKey, hk, hyh, hm]

/-- Folding `insKey` appends exactly the not-yet-present first occurrences. -/
theorem insKeys_eq :
    ∀ (hs ks : List String),
      insKeys ks hs = ks ++ (firstOccur hs).filter (fun y => decide (y ∉ ks))
  | [], ks => by simp [insKeys, firstOccur]
  | h :: t, ks => by
    rw [insKeys, insKeys_eq t (insKey ks h), filter_not_mem_insKey ks h (firstOccur t)]
    by_cases hm : h ∈ ks
    · rw [insKey, if_pos hm]
      have hdrop : decide (h ∉ ks) = false := by simp [hm]
      simp [firstOccur, List.filter_cons, hdrop, hm]
    · rw [insKey, if_neg hm]
      have hkeep : decide (h ∉ ks) = true := by simp [hm]
      simp [firstOccur, List.filter_cons, hkeep, hm]

/-- After a successful run of the loop, the key sequence is the initial one
extended by `insKey` at each well-keyed header. -/
theorem keys_parseFrom :
    ∀ (ls : List String) (st st' : ParseState), parseFrom st ls = some st' →
      st'.files.map Prod.fst = insKeys (st.files.map Prod.fst) (headerPaths ls)
  | [], st, st', h => by
    cases h
    simp [headerPaths, insKeys]
  | l :: ls, st, st', h => by
    unfold parseFrom at h
    cases hsl : stepLine st l with
    | none => rw [hsl] at h; cases h
    | some st1 =>
      rw [hsl] at h
      by_cases hd : pyStartsWith l "diff --git" = true
      · cases hk : headerKey l with
        | none => rw [stepLine_header_fail hd hk] at hsl; cases hsl
        | some k =>
          rw [stepLine_header hd hk] at hsl
          injection hsl with hsl
          subst hsl
          have ih := keys_parseFrom ls _ st' h
          rw [ih]
          simp [map_fst_setEntry, headerPaths, List.filterMap_cons, hd, hk, insKeys]
      · have hd' := bool_eq_false hd
        have hkeys : st1.files.map Prod.fst = st.files.map Prod.fst := by
          by_cases hc : truthy st.current = true
          · rw [stepLine_body hd' hc] at hsl
            injection hsl with hsl
            subst hsl
            rw [stepFlags_map_fst]
            simp [map_fst_modifyEntry]
          · rw [stepLine_skip hd' (bool_eq_false hc)] at hsl
            injection hsl with hsl
            subst hsl
            rw [stepFlags_map_fst]
        have ih := keys_parseFrom ls st1 st' h
        rw [ih, hkeys]
        simp [headerPaths, List.filterMap_cons, hd']

/-- The key sequence of a full parse is the first-occurrence sequence of the
header paths. -/
theorem keys_parseLines {lines : List String} {st : ParseState}
    (h : parseLines lines = some st) :
    st.files.map Prod.fst = firstOccur (headerPaths lines) := by
  have hk := keys_parseFrom lines ⟨[], none⟩ st h
  rw [insKeys_eq] at hk
  simpa using hk

/-- Exclusion commutes with taking the key sequence. -/
theorem map_fst_excludeGithub :
    ∀ (files : List (String × FileStats)),
      (excludeGithub files).map Prod.fst
        = (files.map Prod.fst).filter (fun p => !pyStartsWith p ".github/")
  | [] => rfl
  | p :: rest => by
    have ih := map_fst_excludeGithub rest
    unfold excludeGithub at ih ⊢
    by_cases hp : pyStartsWith p.1 ".github/" = true <;>
      simp [List.filter_cons, hp, ih]

/-! ### The counting invariant (adds/removes versus hunk lines) -/

/-- The counters of an entry agree with the prefix counts of its hunk lines. -/
def statsInv (fs : FileStats) : Prop :=
  fs.adds = fs.hunks.countP plusLine ∧ fs.removes = fs.hunks.countP minusLine

/-- The invariant holds for all entries of a dict. -/
def filesInv (files : List (String × FileStats)) : Prop :=
  ∀ p ∈ files, statsInv p.2

/-- A fresh entry satisfies the invariant. -/
theorem statsInv_initStats : statsInv initStats := ⟨rfl, rfl⟩

/-- Recording one line preserves the invariant. -/
theorem statsInv_countStats {fs : FileStats} (line : String) (h : statsInv fs) :
    statsInv (countStats line fs) := by
  obtain ⟨ha, hr⟩ := h
  unfold countStats statsInv
  by_cases hp : plusLine line = true
  · have hm := plusLine_not_minusLine hp
    simp [hp, hm, List.countP_append, List.countP_cons, ha, hr]
  · have hp' := bool_eq_false hp
    by_cases hm : minusLine line = true
    · simp [hp', hm, List.countP_append, List.countP_cons, ha, hr]
    · have hm' := bool_eq_false hm
      simp [hp', hm', List.countP_append, List.countP_cons, ha, hr]

/-- Assignment of an invariant-satisfying value preserves the invariant. -/
theorem filesInv_setEntry {files : List (String × FileStats)} {k : String} {v : FileStats}
    (h : filesInv files) (hv : statsInv v) : filesInv (setEntry files k v) := by
  intro p hp
  rcases mem_setEntry files k v p hp with h1 | h1
  · subst h1
    exact hv
  · exact h p h1

/-- Mutation by an invariant-preserving function preserves the invariant. -/
theorem filesInv_modifyEntry {files : List (String × FileStats)} {k : String}
    {f : FileStats → FileStats} (h : filesInv files)
    (hf : ∀ fs, statsInv fs → statsInv (f fs)) : filesInv (modifyEntry files k f) := by
  intro p hp
  obtain ⟨q, hq, hpe⟩ := List.mem_map.mp hp
  by_cases hqk : q.1 = k
  · rw [if_pos hqk] at hpe
    subst hpe
    exact hf _ (h q hq)
  · rw [if_neg hqk] at hpe
    subst hpe
    exact h q hq

/-- The flag `if`s only touch the created/deleted flags, so they preserve the
counting invariant. -/
theorem filesInv_stepFlags {st : ParseState} (l : String) (h : filesInv st.files) :
    filesInv (stepFlags st l).files := by
  unfold stepFlags stepFlags1 stepFlags2
  split
  · split
    · exact filesInv_modifyEntry (filesInv_modifyEntry h (fun fs hfs => hfs))
        (fun fs hfs => hfs)
    · exact filesInv_modifyEntry h (fun fs hfs => hfs)
  · split
    · exact filesInv_modifyEntry h (fun fs hfs => hfs)
    · exact h

/-- One loop iteration preserves the counting invariant. -/
theorem filesInv_stepLine {st : ParseState} {l : String} {st' : ParseState}
    (h : stepLine st l = some st') (hinv : filesInv st.files) : filesInv st'.files := by
  by_cases hd : pyStartsWith l "diff --git" = true
  · cases hk : headerKey l with
    | none => rw [stepLine_header_fail hd hk] at h; cases h
    | some path =>
      rw [stepLine_header hd hk] at h
      injection h with h
      subst h
      exact filesInv_setEntry hinv statsInv_initStats
  · have hd' := bool_eq_false hd
    by_cases hc : truthy st.current = true
    · rw [stepLine_body hd' hc] at h
      injection h with h
      subst h
      exact filesInv_stepFlags l
        (filesInv_modifyEntry hinv (fun fs hfs => statsInv_countStats l hfs))
    · rw [stepLine_skip hd' (bool_eq_false hc)] at h
      injection h with h
      subst h
      exact filesInv_stepFlags l hinv

/-- The whole loop preserves the counting invariant. -/
theorem filesInv_parseFrom :
    ∀ (ls : List String) (st st' : ParseState), parseFrom st ls = some st' →
      filesInv st.files → filesInv st'.files
  | [], st, st', h, hinv => by cases h; exact hinv
  | l :: ls, st, st', h, hinv => by
    unfold parseFrom at h
    cases hsl : stepLine st l with
    | none => rw [hsl] at h; cases h
    | some st1 =>
      rw [hsl] at h
      exact filesInv_parseFrom ls st1 st' h (filesInv_stepLine hsl hinv)

/-! ### The summary loop -/

/-- Closed form of the summary fold: rows in order, totals as sums. -/
theorem buildSummary_spec :
    ∀ (files : List (String × FileStats)) (acc : ChangeSummary),
      files.foldl summaryStep acc
        = ⟨acc.rows ++ files.map rowOf,
           acc.totalAdds + (files.map (fun p => p.2.adds)).sum,
           acc.totalRemoves + (files.map (fun p => p.2.removes)).sum⟩
  | [], acc => by cases acc; simp
  | p :: files, acc => by
    rw [List.foldl_cons, buildSummary_spec files (summaryStep acc p)]
    simp [summaryStep, Nat.add_assoc]

/-! ### Totality of the loop on well-formed header lines -/

/-- A single iteration succeeds whenever a header line has at least three
whitespace-separated tokens. -/
theorem stepLine_isSome {st : ParseState} {l : String}
    (h : pyStartsWith l "diff --git" = true → 3 ≤ (pySplitWs l).length) :
    (stepLine st l).isSome = true := by
  by_cases hd : pyStartsWith l "diff --git" = true
  · have hlen := h hd
    cases hk : (pySplitWs l).get? 2 with
    | none =>
      rw [List.get?_eq_none] at hk
      omega
    | some p2 =>
      rw [stepLine_header hd (by unfold headerKey; rw [hk]; rfl)]
      rfl
  · have hd' := bool_eq_false hd
    by_cases hc : truthy st.current = true
    · rw [stepLine_body hd' hc]
      rfl
    · rw [stepLine_skip hd' (bool_eq_false hc)]
      rfl

/-- The loop runs to completion whenever every header line has at least three
whitespace-separated tokens. -/
theorem parseFrom_isSome :
    ∀ (ls : List String) (st : ParseState),
      (∀ l ∈ ls, pyStartsWith l "diff --git" = true → 3 ≤ (pySplitWs l).length) →
      (parseFrom st ls).isSome = true
  | [], _, _ => rfl
  | l :: ls, st, h => by
    have hstep := @stepLine_isSome st l (h l (List.mem_cons_self l ls))
    cases hsl : stepLine st l with
    | none => rw [hsl] at hstep; cases hstep
    | some st1 =>
      unfold parseFrom
      rw [hsl]
      exact parseFrom_isSome ls st1 (fun x hx => h x (List.mem_cons_of_mem l hx))

/-! ### Effect of one block on the created/deleted flags -/

/-- Recording a line never changes the created flag. -/
theorem countStats_added (l : String) (fs : FileStats) :
    (countStats l fs).added = fs.added := by
  simp only [countStats]
  split_ifs <;> rfl

/-- Recording a line never changes the deleted flag. -/
theorem countStats_deleted (l : String) (fs : FileStats) :
    (countStats l fs).deleted = fs.deleted := by
  simp only [countStats]
  split_ifs <;> rfl

/-- On a line, the flag `if`s OR the two marker tests into the flags of the
entry keyed by the (truthy) current path, and change nothing else about it. -/
theorem stepFlags_getStats {st : ParseState} {k : String} {fs : FileStats} (l : String)
    (hc : st.current = some k) (hk0 : k ≠ "") (hg : getStats st.files k = some fs) :
    (stepFlags st l).current = some k ∧
    getStats (stepFlags st l).files k
      = some ⟨fs.adds, fs.removes, fs.hunks,
              fs.added || pyStartsWith l "new file mode",
              fs.deleted || pyStartsWith l "deleted file mode"⟩ := by
  cases h1 : pyStartsWith l "new file mode" <;>
    cases h2 : pyStartsWith l "deleted file mode" <;>
      simp [stepFlags, stepFlags1, stepFlags2, h1, h2, hc, truthy, hk0,
            getStats_modifyEntry, hg, setAdded, setDeleted]

/-- Running the loop over a header-free block ORs "does the block contain a
marker line" into the flags of the current entry. -/
theorem flags_parseFrom (k : String) (hk0 : k ≠ "") :
    ∀ (body : List String) (st : ParseState) (fs : FileStats),
      st.current = some k → getStats st.files k = some fs →
      (∀ l ∈ body, pyStartsWith l "diff --git" = false) →
      ∃ st' fs', parseFrom st body = some st' ∧ st'.current = some k ∧
        getStats st'.files k = some fs' ∧
        fs'.added = (fs.added || body.any (fun l => pyStartsWith l "new file mode")) ∧
        fs'.deleted = (fs.deleted || body.any (fun l => pyStartsWith l "deleted file mode"))
  | [], st, fs, hc, hg, _ => ⟨st, fs, rfl, hc, hg, by simp, by simp⟩
  | l :: body, st, fs, hc, hg, hb => by
    have hd : pyStartsWith l "diff --git" = false := hb l (List.mem_cons_self l body)
    have htr : truthy st.current = true := by rw [hc]; simp [truthy, hk0]
    have hgetd : st.current.getD "" = k := by rw [hc]; rfl
    have hgm : getStats (modifyEntry st.files (st.current.getD "") (countStats l)) k
        = some (countStats l fs) := by
      rw [hgetd, getStats_modifyEntry, if_pos rfl, hg]
      rfl
    obtain ⟨hcur1, hget1⟩ := @stepFlags_getStats
      ⟨modifyEntry st.files (st.current.getD "") (countStats l), st.current⟩
      k (countStats l fs) l hc hk0 hgm
    obtain ⟨st', fs', hp, hc', hg', ha', hdel'⟩ :=
      flags_parseFrom k hk0 body _ _ hcur1 hget1
        (fun x hx => hb x (List.mem_cons_of_mem l hx))
    refine ⟨st', fs', ?_, hc', hg', ?_, ?_⟩
    · unfold parseFrom
      rw [stepLine_body hd htr]
      exact hp
    · rw [ha']
      simp [countStats_added, List.any_cons, Bool.or_assoc]
    · rw [hdel']
      simp [countStats_deleted, List.any_cons, Bool.or_assoc]

/-! ### Independence of an entry from the pre-header past -/

/-- The first flag `if` treats two states with the same `current` and the same
entry for `k` identically on that entry. -/
theorem stepFlags1_indep {stA stB : ParseState} (l k : String)
    (hc : stA.current = stB.current)
    (hg : getStats stA.files k = getStats stB.files k) :
    (stepFlags1 stA l).current = (stepFlags1 stB l).current ∧
    getStats (stepFlags1 stA l).files k = getStats (stepFlags1 stB l).files k := by
  unfold stepFlags1
  rw [hc]
  by_cases h1 : (pyStartsWith l "new file mode" && truthy stB.current) = true
  · rw [if_pos h1, if_pos h1]
    exact ⟨rfl, by simp [getStats_modifyEntry, hg]⟩
  · rw [if_neg h1, if_neg h1]
    exact ⟨hc, hg⟩

/-- The second flag `if` treats two states with the same `current` and the
same entry for `k` identically on that entry. -/
theorem stepFlags2_indep {stA stB : ParseState} (l k : String)
    (hc : stA.current = stB.current)
    (hg : getStats stA.files k = getStats stB.files k) :
    (stepFlags2 stA l).current = (stepFlags2 stB l).current ∧
    getStats (stepFlags2 stA l).files k = getStats (stepFlags2 stB l).files k := by
  unfold stepFlags2
  rw [hc]
  by_cases h1 : (pyStartsWith l "deleted file mode" && truthy stB.current) = true
  · rw [if_pos h1, if_pos h1]
    exact ⟨rfl, by simp [getStats_modifyEntry, hg]⟩
  · rw [if_neg h1, if_neg h1]
    exact ⟨hc, hg⟩

/-- Both flag `if`s together, same property. -/
theorem stepFlags_indep {stA stB : ParseState} (l k : String)
    (hc : stA.current = stB.current)
    (hg : getStats stA.files k = getStats stB.files k) :
    (stepFlags stA l).current = (stepFlags stB l).current ∧
    getStats (stepFlags stA l).files k = getStats (stepFlags stB l).files k := by
  obtain ⟨h1, h2⟩ := stepFlags1_indep l k hc hg
  exact stepFlags2_indep l k h1 h2

/-- One loop iteration treats two states with the same `current` and the same
entry for `k` identically: same success, same new `current`, same entry. -/
theorem stepLine_indep {stA stB : ParseState} (l k : String)
    (hc : stA.current = stB.current)
    (hg : getStats stA.files k = getStats stB.files k) :
    (stepLine stA l).isSome = (stepLine stB l).isSome ∧
    (stepLine stA l).map ParseState.current = (stepLine stB l).map ParseState.current ∧
    (stepLine stA l).bind (fun s => getStats s.files k)
      = (stepLine stB l).bind (fun s => getStats s.files k) := by
  by_cases hd : pyStartsWith l "diff --git" = true
  · cases hk : headerKey l with
    | none =>
      rw [stepLine_header_fail hd hk, stepLine_header_fail hd hk]
      exact ⟨rfl, rfl, rfl⟩
    | some p =>
      rw [stepLine_header hd hk, stepLine_header hd hk]
      refine ⟨rfl, rfl, ?_⟩
      simp [getStats_setEntry, hg]
  · have hd' := bool_eq_false hd
    by_cases hcb : truthy stB.current = true
    · have hca : truthy stA.current = true := by rw [hc]; exact hcb
      rw [stepLine_body hd' hca, stepLine_body hd' hcb]
      have hgm : getStats (modifyEntry stA.files (stA.current.getD "") (countStats l)) k
          = getStats (modifyEntry stB.files (stB.current.getD "") (countStats l)) k := by
        rw [hc, getStats_modifyEntry, getStats_modifyEntry, hg]
      obtain ⟨h1, h2⟩ := @stepFlags_indep
        ⟨modifyEntry stA.files (stA.current.getD "") (countStats l), stA.current⟩
        ⟨modifyEntry stB.files (stB.current.getD "") (countStats l), stB.current⟩
        l k hc hgm
      exact ⟨rfl, by simp [h1], by simp [h2]⟩
    · have hcb' := bool_eq_false hcb
      have hca' : truthy stA.current = false := by rw [hc]; exact hcb'
      rw [stepLine_skip hd' hca', stepLine_skip hd' hcb']
      obtain ⟨h1, h2⟩ := stepFlags_indep l k hc hg
      exact ⟨rfl, by simp [h1], by simp [h2]⟩

/-- Running the loop from two states with the same `current` and the same
entry for `k` produces the same final entry for `k`. -/
theorem parseFrom_indep (k : String) :
    ∀ (ls : List String) (stA stB : ParseState),
      stA.current = stB.current →
      getStats stA.files k = getStats stB.files k →
      (parseFrom stA ls).bind (fun s => getStats s.files k)
        = (parseFrom stB ls).bind (fun s => getStats s.files k)
  | [], stA, stB, _, hg => by simpa [parseFrom] using hg
  | l :: ls, stA, stB, hc, hg => by
    obtain ⟨h1, h2, h3⟩ := stepLine_indep l k hc hg
    unfold parseFrom
    cases hA : stepLine stA l with
    | none =>
      cases hB : stepLine stB l with
      | none => rfl
      | some sB => rw [hA, hB] at h1; simp at h1
    | some sA =>
      cases hB : stepLine stB l with
      | none => rw [hA, hB] at h1; simp at h1
      | some sB =>
        rw [hA, hB] at h2 h3
        simp only [Option.map_some'] at h2
        simp only [Option.some_bind] at h3
        exact parseFrom_indep k ls sA sB (by injection h2) h3

/-! ### Remaining small helpers used by the claim theorems -/

/-- Pointwise-equal mutation functions give equal mutations. -/
theorem modifyEntry_congr {files : List (String × FileStats)} {k : String}
    {f g : FileStats → FileStats} (h : ∀ fs, f fs = g fs) :
    modifyEntry files k f = modifyEntry files k g := by
  unfold modifyEntry
  apply List.map_congr_left
  intro p _
  by_cases hp : p.1 = k <;> simp [hp, h]

/-! ### The claims -/

/-- C1 (corrected): a `diff --git` header line with at least three
whitespace-separated tokens starts a fresh zero-count entry, keyed by the
third token with its first two characters removed — the path following the
`a/` marker (the pre-change path), which equals the post-change path only
when the file is not renamed — and re-targets `current` to that key. -/
theorem header_keyed_by_a_path (st : ParseState) (line p2 : String)
    (hh : pyStartsWith line "diff --git" = true)
    (hp : (pySplitWs line).get? 2 = some p2) :
    stepLine st line
      = some ⟨setEntry st.files (pyDropChars 2 p2) initStats, some (pyDropChars 2 p2)⟩ :=
  stepLine_header hh (by unfold headerKey; rw [hp]; rfl)

/-- C1 counterexample: on the rename header `diff --git a/old.py b/new.py`
the entry is keyed `old.py` (the `a/` path), not `new.py` (the `b/` path
demanded by the claim). -/
theorem header_key_b_path_cex :
    (parseLines ["diff --git a/old.py b/new.py"]).map (fun st => st.files.map Prod.fst)
      = some ["old.py"] ∧ ("old.py" : String) ≠ "new.py" :=
  ⟨by decide, by decide⟩

/-- C1 witness: the amended statement evaluated on the rename header. -/
theorem header_keyed_by_a_path_witness :
    stepLine ⟨[], none⟩ "diff --git a/old.py b/new.py"
      = some ⟨[("old.py", initStats)], some "old.py"⟩ := by
  have he : pyDropChars 2 "a/old.py" = "old.py" := by decide
  have h := header_keyed_by_a_path ⟨[], none⟩ "diff --git a/old.py b/new.py" "a/old.py"
    (by decide) (by decide)
  rw [he] at h
  exact h

/-- C2 (corrected): the parsing phase succeeds on every input whose
`diff --git` lines all carry at least three whitespace-separated tokens;
on shorter header lines it fails (the modelled `IndexError`). -/
theorem parse_totality_amended (diff_text : String)
    (h : ∀ l ∈ pySplitlines diff_text,
        pyStartsWith l "diff --git" = true → 3 ≤ (pySplitWs l).length) :
    (parseDiff diff_text).isSome = true :=
  parseFrom_isSome (pySplitlines diff_text) ⟨[], none⟩ h

/-- C2 counterexample: the input text `diff --git` alone makes the parsing
phase fail (the `parts[2]` lookup raises `IndexError`), contradicting the
claim that parsing succeeds on every input text. -/
theorem parse_totality_cex : parseDiff "diff --git" = none := by decide

/-- C2 witness: the amended statement evaluated on a well-formed input. -/
theorem parse_totality_amended_witness :
    (parseDiff "diff --git a/a.py b/a.py\n+x").isSome = true :=
  parse_totality_amended "diff --git a/a.py b/a.py\n+x" (by decide)

/-- C3 (confirmed): on every successfully parsed diff text, each entry's
added count is the number of its hunk lines with prefix `+` but not `+++`,
its removed count the number with prefix `-` but not `---`, and their sum
counts the union of the two classes. -/
theorem counts_match_hunk_prefixes (diff_text : String) (st : ParseState)
    (h : parseDiff diff_text = some st) :
    ∀ p ∈ st.files,
      p.2.adds = p.2.hunks.countP plusLine ∧
      p.2.removes = p.2.hunks.countP minusLine ∧
      p.2.adds + p.2.removes
        = p.2.hunks.countP (fun l => plusLine l || minusLine l) := by
  intro p hp
  have hinv := filesInv_parseFrom (pySplitlines diff_text) ⟨[], none⟩ st h
    (fun q hq => absurd hq (List.not_mem_nil q))
  obtain ⟨ha, hr⟩ := hinv p hp
  refine ⟨ha, hr, ?_⟩
  rw [ha, hr, countP_plus_minus]

/-- C3 witness: the statement evaluated on a three-line hunk containing a
content line with prefix `+++`. -/
theorem counts_match_hunk_prefixes_witness :
    (1 : Nat) = List.countP plusLine ["+x", "-y", "+++z"] ∧
    (1 : Nat) = List.countP minusLine ["+x", "-y", "+++z"] ∧
    (1 + 1 : Nat) = List.countP (fun l => plusLine l || minusLine l) ["+x", "-y", "+++z"] :=
  counts_match_hunk_prefixes "diff --git a/f b/f\n+x\n-y\n+++z"
    ⟨[("f", ⟨1, 1, ["+x", "-y", "+++z"], false, false⟩)], some "f"⟩ (by decide)
    ("f", ⟨1, 1, ["+x", "-y", "+++z"], false, false⟩) (by decide)

/-- C4 (confirmed): on every successfully parsed diff text, the summary rows
are exactly the non-`.github/` entries in order (so an excluded path yields
no row), and each grand total is the sum of the corresponding column over
the included rows only. -/
theorem exclusion_and_totals (diff_text : String) (st : ParseState)
    (h : parseDiff diff_text = some st) :
    (buildSummary (excludeGithub st.files)).rows
        = (st.files.filter (fun p => !pyStartsWith p.1 ".github/")).map rowOf ∧
    (buildSummary (excludeGithub st.files)).totalAdds
        = ((buildSummary (excludeGithub st.files)).rows.map SummaryRow.adds).sum ∧
    (buildSummary (excludeGithub st.files)).totalRemoves
        = ((buildSummary (excludeGithub st.files)).rows.map SummaryRow.removes).sum := by
  unfold buildSummary
  rw [buildSummary_spec]
  refine ⟨by simp [excludeGithub], ?_, ?_⟩
  · simp only [List.nil_append, Nat.zero_add, List.map_map]
    rfl
  · simp only [List.nil_append, Nat.zero_add, List.map_map]
    rfl

/-- C4 witness: the totals equation evaluated on a two-file diff with one
excluded path. -/
theorem exclusion_and_totals_witness :
    (buildSummary (excludeGithub [("a.py", ⟨1, 0, ["+x"], false, false⟩),
        (".github/w", ⟨1, 0, ["+y"], false, false⟩)])).totalAdds
      = ((buildSummary (excludeGithub [("a.py", ⟨1, 0, ["+x"], false, false⟩),
        (".github/w", ⟨1, 0, ["+y"], false, false⟩)])).rows.map SummaryRow.adds).sum :=
  (exclusion_and_totals "diff --git a/a.py b/a.py\n+x\ndiff --git a/.github/w b/.github/w\n+y"
    ⟨[("a.py", ⟨1, 0, ["+x"], false, false⟩),
      (".github/w", ⟨1, 0, ["+y"], false, false⟩)], some ".github/w"⟩
    (by decide)).2.1

/-- C5 (confirmed): on every successfully parsed diff text, the included
entries (hence the summary rows, which are their images in order) appear in
the order in which their paths first occur as `diff --git` headers,
restricted to non-excluded paths. -/
theorem row_order_first_seen (diff_text : String) (st : ParseState)
    (h : parseDiff diff_text = some st) :
    (excludeGithub st.files).map Prod.fst
        = (firstOccur (headerPaths (pySplitlines diff_text))).filter
            (fun p => !pyStartsWith p ".github/") ∧
    (buildSummary (excludeGithub st.files)).rows = (excludeGithub st.files).map rowOf := by
  constructor
  · rw [map_fst_excludeGithub, keys_parseLines h]
  · unfold buildSummary
    rw [buildSummary_spec]
    simp

/-- C5 witness: the order equation evaluated on a diff whose first path
reappears in a later header. -/
theorem row_order_first_seen_witness :
    (excludeGithub [("b.py", initStats),
        (".github/y", ⟨1, 0, ["+z"], false, false⟩)]).map Prod.fst
      = (firstOccur (headerPaths (pySplitlines
          "diff --git a/b.py b/b.py\n+x\ndiff --git a/.github/y b/.github/y\n+z\ndiff --git a/b.py b/b.py"))).filter
          (fun p => !pyStartsWith p ".github/") :=
  (row_order_first_seen
    "diff --git a/b.py b/b.py\n+x\ndiff --git a/.github/y b/.github/y\n+z\ndiff --git a/b.py b/b.py"
    ⟨[("b.py", initStats), (".github/y", ⟨1, 0, ["+z"], false, false⟩)], some "b.py"⟩
    (by decide)).1

/-- C6 (confirmed): the two-block scenario — `a.py` with five added and one
removed content lines, `.github/workflows/x.yml` with two added — yields a
summary with the single row (`a.py`, 5, 1, 6) and totals (5, 1). -/
theorem end_to_end_scenario :
    analyzeSummary "diff --git a/a.py b/a.py\n--- a/a.py\n+++ b/a.py\n@@ -1,3 +1,7 @@\n+l1\n+l2\n+l3\n+l4\n+l5\n-r1\ndiff --git a/.github/workflows/x.yml b/.github/workflows/x.yml\n--- a/.github/workflows/x.yml\n+++ b/.github/workflows/x.yml\n@@ -0,0 +1,2 @@\n+y1\n+y2"
      = some ⟨[⟨"a.py", 5, 1, 6⟩], 5, 1⟩ := by decide

/-- C7 (corrected): for a block `header :: body` whose (nonempty) key is `k`
and whose body contains no further header, the created flag of `k`'s entry
afterwards is exactly "the body contains a `new file mode` line" and the
deleted flag exactly "the body contains a `deleted file mode` line"; in
particular a single marker sets its own flag and leaves the other false,
while a block containing both markers sets both. -/
theorem created_deleted_flags (st : ParseState) (header : String) (body : List String)
    (k : String) (hh : pyStartsWith header "diff --git" = true)
    (hk : headerKey header = some k) (hk0 : k ≠ "")
    (hbody : ∀ l ∈ body, pyStartsWith l "diff --git" = false) :
    ∃ st' fs', parseFrom st (header :: body) = some st' ∧
      getStats st'.files k = some fs' ∧
      fs'.added = body.any (fun l => pyStartsWith l "new file mode") ∧
      fs'.deleted = body.any (fun l => pyStartsWith l "deleted file mode") := by
  have hdr := @stepLine_header st header k hh hk
  have hgin : getStats (setEntry st.files k initStats) k = some initStats := by
    rw [getStats_setEntry, if_pos rfl]
  obtain ⟨st', fs', hp, hc', hg', ha', hdel'⟩ :=
    flags_parseFrom k hk0 body ⟨setEntry st.files k initStats, some k⟩ initStats rfl hgin hbody
  refine ⟨st', fs', ?_, hg', ?_, ?_⟩
  · unfold parseFrom
    rw [hdr]
    exact hp
  · rw [ha']
    simp [initStats]
  · rw [hdel']
    simp [initStats]

/-- C7 counterexample: a block containing both marker lines has both flags
true, refuting the claim that a `new file mode` line forces the deleted flag
to be false. -/
theorem created_deleted_flags_cex :
    (parseLines ["diff --git a/f b/f", "new file mode 100644",
        "deleted file mode 100644"]).map
        (fun st => st.files.map (fun p => (p.1, p.2.added, p.2.deleted)))
      = some [("f", true, true)] := by decide

/-- C7 witness: the amended statement evaluated on a single-marker block. -/
theorem created_deleted_flags_witness :
    ((parseFrom ⟨[], none⟩ ["diff --git a/f b/f", "new file mode 100644"]).bind
        (fun s => getStats s.files "f")).map FileStats.added = some true ∧
    ((parseFrom ⟨[], none⟩ ["diff --git a/f b/f", "new file mode 100644"]).bind
        (fun s => getStats s.files "f")).map FileStats.deleted = some false := by
  obtain ⟨st', fs', hp, hg', ha', hdel'⟩ := created_deleted_flags ⟨[], none⟩
    "diff --git a/f b/f" ["new file mode 100644"] "f" (by decide) (by decide) (by decide)
    (by decide)
  rw [hp]
  simp only [Option.some_bind, hg', Option.map_some']
  rw [ha', hdel']
  exact ⟨by decide, by decide⟩

/-- C8 (confirmed): each external call is attempted at most once per run; a
failed diff fetch leaves the trace at exactly the fetch; a failed completion
call leaves it at fetch-then-completion; and the comment post happens only
when the fetch, the parse, the filter pass and the completion call have all
succeeded — so no partial comment is ever posted. -/
theorem abort_before_post (env : Collab) (assemble : ChangeSummary → String → String) :
    (∀ c : ExtCall, ((runMain env assemble).1.count c) ≤ 1) ∧
    (∀ e, env.fetchDiff = Except.error e → (runMain env assemble).1 = [ExtCall.fetchDiff]) ∧
    (∀ d, env.fetchDiff = Except.ok d →
      ∀ st fl, parseDiff d = some st →
        filterFrom [] false (pySplitlines d) = some fl →
        ∀ e, env.narrative (buildPrompt (joinNl fl)) = Except.error e →
          (runMain env assemble).1 = [ExtCall.fetchDiff, ExtCall.narrative]) ∧
    (ExtCall.postComment ∈ (runMain env assemble).1 →
      ∃ d st fl body, env.fetchDiff = Except.ok d ∧ parseDiff d = some st ∧
        filterFrom [] false (pySplitlines d) = some fl ∧
        env.narrative (buildPrompt (joinNl fl)) = Except.ok body) := by
  refine ⟨?_, ?_, ?_, ?_⟩
  · intro c
    cases hfd : env.fetchDiff with
    | error e =>
      have ht : (runMain env assemble).1 = [ExtCall.fetchDiff] := by simp [runMain, hfd]
      rw [ht]; cases c <;> decide
    | ok diff =>
      cases hst : parseDiff diff with
      | none =>
        have ht : (runMain env assemble).1 = [ExtCall.fetchDiff] := by
          simp [runMain, hfd, hst]
        rw [ht]; cases c <;> decide
      | some st =>
        cases hfl : filterFrom [] false (pySplitlines diff) with
        | none =>
          have ht : (runMain env assemble).1 = [ExtCall.fetchDiff] := by
            simp [runMain, hfd, hst, hfl]
          rw [ht]; cases c <;> decide
        | some fl =>
          cases hn : env.narrative (buildPrompt (joinNl fl)) with
          | error e =>
            have ht : (runMain env assemble).1 = [ExtCall.fetchDiff, ExtCall.narrative] := by
              simp [runMain, hfd, hst, hfl, hn]
            rw [ht]; cases c <;> decide
          | ok body =>
            cases hpc : env.postComment
                (assemble (buildSummary (excludeGithub st.files)) body) with
            | error e =>
              have ht : (runMain env assemble).1
                  = [ExtCall.fetchDiff, ExtCall.narrative, ExtCall.postComment] := by
                simp [runMain, hfd, hst, hfl, hn, hpc]
              rw [ht]; cases c <;> decide
            | ok u =>
              have ht : (runMain env assemble).1
                  = [ExtCall.fetchDiff, ExtCall.narrative, ExtCall.postComment] := by
                simp [runMain, hfd, hst, hfl, hn, hpc]
              rw [ht]; cases c <;> decide
  · intro e he
    simp [runMain, he]
  · intro d hd st fl hst hfl e he
    simp [runMain, hd, hst, hfl, he]
  · intro hmem
    cases hfd : env.fetchDiff with
    | error e => simp [runMain, hfd] at hmem
    | ok diff =>
      cases hst : parseDiff diff with
      | none => simp [runMain, hfd, hst] at hmem
      | some st =>
        cases hfl : filterFrom [] false (pySplitlines diff) with
        | none => simp [runMain, hfd, hst, hfl] at hmem
        | some fl =>
          cases hn : env.narrative (buildPrompt (joinNl fl)) with
          | error e => simp [runMain, hfd, hst, hfl, hn] at hmem
          | ok body => exact ⟨diff, st, fl, body, rfl, hst, hfl, hn⟩

/-- C8 witness: with a failing diff fetch, the trace is exactly the fetch. -/
theorem abort_before_post_witness :
    (runMain ⟨Except.error "boom", fun _ => Except.error "x", fun _ => Except.error "y"⟩
        (fun _ b => b)).1 = [ExtCall.fetchDiff] :=
  (abort_before_post
    ⟨Except.error "boom", fun _ => Except.error "x", fun _ => Except.error "y"⟩
    (fun _ b => b)).2.1 "boom" rfl

/-- C9 (confirmed): a repeated `diff --git` header for a key already in the
dict resets that entry to fresh zero statistics while keeping the key
sequence (hence the first-appearance position) unchanged, and the entry's
final statistics after the remaining lines are those obtained from the fresh
entry alone — the pre-header past of that key is forgotten. -/
theorem repeated_header_resets_entry (st : ParseState) (line k : String)
    (rest : List String) (hh : pyStartsWith line "diff --git" = true)
    (hk : headerKey line = some k) (hmem : k ∈ st.files.map Prod.fst) :
    ∃ st', stepLine st line = some st' ∧
      st'.files.map Prod.fst = st.files.map Prod.fst ∧
      getStats st'.files k = some initStats ∧
      st'.current = some k ∧
      (parseFrom st' rest).bind (fun s => getStats s.files k)
        = (parseFrom ⟨[(k, initStats)], some k⟩ rest).bind (fun s => getStats s.files k) := by
  refine ⟨⟨setEntry st.files k initStats, some k⟩, stepLine_header hh hk, ?_, ?_, rfl, ?_⟩
  · rw [map_fst_setEntry]
    unfold insKey
    rw [if_pos hmem]
  · rw [getStats_setEntry, if_pos rfl]
  · apply parseFrom_indep
    · rfl
    · rw [getStats_setEntry, if_pos rfl]
      simp [getStats]

/-- C9 witness: the reset evaluated on a dict already holding counts for the
repeated path. -/
theorem repeated_header_resets_entry_witness :
    (stepLine ⟨[("f", ⟨3, 4, ["+q"], false, false⟩)], none⟩ "diff --git a/f b/f").bind
        (fun s => getStats s.files "f") = some initStats := by
  obtain ⟨st', hstep, _, hget, _, _⟩ := repeated_header_resets_entry
    ⟨[("f", ⟨3, 4, ["+q"], false, false⟩)], none⟩ "diff --git a/f b/f" "f" ["+x"]
    (by decide) (by decide) (by decide)
  rw [hstep]
  simpa using hget

/-- C10 (confirmed): under a truthy `current`, a hunk content line beginning
with `+++` or `---` is appended to the current hunks but increments neither
counter — classification is by line prefix alone, not by position. -/
theorem prefix_only_classification (st : ParseState) (line : String)
    (hcur : truthy st.current = true)
    (hpm : pyStartsWith line "+++" = true ∨ pyStartsWith line "---" = true) :
    stepLine st line
      = some ⟨modifyEntry st.files (st.current.getD "")
          (fun fs => { fs with hunks := fs.hunks ++ [line] }), st.current⟩ := by
  have facts : pyStartsWith line "diff --git" = false ∧
      pyStartsWith line "new file mode" = false ∧
      pyStartsWith line "deleted file mode" = false ∧
      plusLine line = false ∧ minusLine line = false := by
    rcases hpm with hp | hp
    · refine ⟨pyStartsWith_excl "+++" "diff --git" (by decide) (by decide) hp,
        pyStartsWith_excl "+++" "new file mode" (by decide) (by decide) hp,
        pyStartsWith_excl "+++" "deleted file mode" (by decide) (by decide) hp, ?_, ?_⟩
      · unfold plusLine
        rw [hp]
        simp
      · unfold minusLine
        rw [pyStartsWith_excl "+++" "-" (by decide) (by decide) hp]
        rfl
    · refine ⟨pyStartsWith_excl "---" "diff --git" (by decide) (by decide) hp,
        pyStartsWith_excl "---" "new file mode" (by decide) (by decide) hp,
        pyStartsWith_excl "---" "deleted file mode" (by decide) (by decide) hp, ?_, ?_⟩
      · unfold plusLine
        rw [pyStartsWith_excl "---" "+" (by decide) (by decide) hp]
        rfl
      · unfold minusLine
        rw [hp]
        simp
  obtain ⟨hdg, hnf, hdf, hpl, hml⟩ := facts
  have hcount : ∀ fs, countStats line fs = { fs with hunks := fs.hunks ++ [line] } := by
    intro fs
    simp [countStats, hpl, hml]
  rw [stepLine_body hdg hcur, stepFlags_noop hnf hdf, modifyEntry_congr hcount]

/-- C10 witness: a `+++`-prefixed hunk content line leaves both counters at
zero while landing in the hunks. -/
theorem prefix_only_classification_witness :
    stepLine ⟨[("f", initStats)], some "f"⟩ "+++x"
      = some ⟨[("f", ⟨0, 0, ["+++x"], false, false⟩)], some "f"⟩ := by
  have h := prefix_only_classification ⟨[("f", initStats)], some "f"⟩ "+++x" (by decide)
    (Or.inl (by decide))
  rw [h]
  decide
